import Mathlib

/-!
Shallow embedding of the solhub chat backend (socket.io handlers and admin
HTTP routes) together with proofs of the specified properties.

The embedding follows the second server variant of the source file
(`join`, `sendMessage`, `broadcastMessage`, `typing`, `disconnect` handlers
and the `/api/channels` family of routes), plus the first variant of
`sendMessage` for the equivalence claim.  Mongo documents are lists of
records; the socket.io connection map is an association list; `Date.now`
is an explicit `now : Nat` parameter; mongoose validation (required,
enum, maxlength, trim) is modelled by `validMessage`; a store write that
throws is modelled for the broadcast loop by an explicit failure index.
-/

namespace Solhub

/-- The fixed text-channel set, `const channels = [...]` in the source. -/
def channels : List String := ["general", "trading", "nft", "defi", "announcements"]

/-- A User document.  The User schema file is not part of the sources, but
every field used by the server is listed here; `uid` stands for the Mongo
`_id`. -/
structure User where
  uid : Nat
  username : String
  walletAddress : String
  avatar : Option String
  role : Option String
  isOnline : Bool
  socketId : Option Nat
  lastSeen : Nat
deriving DecidableEq, Repr

/-- A Message document, following `messageSchema`. -/
structure Message where
  mid : Nat
  username : String
  text : String
  channel : String
  avatar : Option String
  isBroadcast : Bool
  userId : Nat
  timestamp : Nat
deriving DecidableEq, Repr

/-- A Channel document, following `channelSchema`.  `messageCount` is an
integer because the delete-message route decrements it without a floor. -/
structure Channel where
  cid : Nat
  name : String
  description : String
  isActive : Bool
  messageCount : Int
  lastMessageAt : Option Nat
  createdBy : Nat
deriving DecidableEq, Repr

/-- Where a socket.io emission goes: `socket.emit` (originator only),
`socket.broadcast.emit` (everyone but the originator), `io.emit` (all). -/
inductive Target where
  | originator
  | others
  | all
deriving DecidableEq, Repr

/-- The events the server emits. -/
inductive Event where
  | userJoined (username : String) (avatar : Option String) (isOnline : Bool)
  | userLeft (username : String) (avatar : Option String)
  | joinError (msg : String)
  | newMessage (id : Nat) (username : String) (text : String) (timestamp : Nat)
      (avatar : Option String) (channel : String) (isBroadcast : Bool)
  | messageError (msg : String)
  | userTyping (userId : Nat) (isTyping : Bool)
deriving DecidableEq, Repr

/-- One emission: an event with its audience. -/
structure Emission where
  target : Target
  event : Event
deriving DecidableEq, Repr

/-- The full server state: the Mongo collections, the in-memory
`activeConnections` map (socket id to user id) and id allocators. -/
structure ServerState where
  users : List User
  messages : List Message
  channelStore : List Channel
  activeConnections : List (Nat × Nat)
  nextUserId : Nat
  nextMessageId : Nat
  nextChannelId : Nat
deriving DecidableEq, Repr

/-- JS-Map `get`. -/
def mapGet (m : List (Nat × Nat)) (k : Nat) : Option Nat :=
  (m.find? (fun e => e.1 == k)).map (fun e => e.2)

/-- JS-Map `set`: overwrite the entry for the key if present, else append. -/
def mapSet : List (Nat × Nat) → Nat → Nat → List (Nat × Nat)
  | [], k, v => [(k, v)]
  | e :: rest, k, v => if e.1 == k then (k, v) :: rest else e :: mapSet rest k v

/-- JS-Map `delete`. -/
def mapDelete (m : List (Nat × Nat)) (k : Nat) : List (Nat × Nat) :=
  m.filter (fun e => !(e.1 == k))

/-- JS truthiness of a string: nonempty. -/
def truthyStr (s : String) : Bool := !(s == "")

/-- JS truthiness of an optional string (`undefined`/`null`/empty are falsy). -/
def jsTruthy : Option String → Bool
  | none => false
  | some s => truthyStr s

/-- `newVal || oldVal` used for the avatar/role last-write-wins updates. -/
def orElseTruthy (newVal oldVal : Option String) : Option String :=
  if jsTruthy newVal then newVal else oldVal

/-- `User.findOne({$or: [{username}, {walletAddress}]})`: first user whose
username or wallet address matches. -/
def findUserByOr (users : List User) (uname wallet : String) : Option User :=
  users.find? (fun u => u.username == uname || u.walletAddress == wallet)

/-- `User.findById`. -/
def findUserById (users : List User) (uid : Nat) : Option User :=
  users.find? (fun u => u.uid == uid)

/-- `user.save()` on a fetched document: replace the first document with
this id. -/
def updateFirstUser : List User → Nat → (User → User) → List User
  | [], _, _ => []
  | u :: rest, uid, f => if u.uid == uid then f u :: rest else u :: updateFirstUser rest uid f

/-- `Channel.findOne({name})` / `Channel.findOneAndUpdate` target lookup. -/
def findChannelByName (chans : List Channel) (n : String) : Option Channel :=
  chans.find? (fun c => c.name == n)

/-- `Channel.findById`. -/
def findChannelById (chans : List Channel) (cid : Nat) : Option Channel :=
  chans.find? (fun c => c.cid == cid)

/-- `Channel.findOneAndUpdate({name}, {lastMessageAt, $inc: {messageCount: 1}})`:
update the first channel with the given name; no-op when absent. -/
def channelUpdateFirst : List Channel → String → Nat → List Channel
  | [], _, _ => []
  | c :: rest, n, t =>
    if c.name == n then { c with lastMessageAt := some t, messageCount := c.messageCount + 1 } :: rest
    else c :: channelUpdateFirst rest n t

/-- `Channel.findOneAndUpdate({name}, {$inc: {messageCount: k}})` (no
timestamp change), used by the delete-message route with `k = -1`. -/
def channelIncFirst : List Channel → String → Int → List Channel
  | [], _, _ => []
  | c :: rest, n, k =>
    if c.name == n then { c with messageCount := c.messageCount + k } :: rest
    else c :: channelIncFirst rest n k

/-- `Channel.findByIdAndDelete`. -/
def removeFirstChannelById : List Channel → Nat → List Channel
  | [], _ => []
  | c :: rest, cid => if c.cid == cid then rest else c :: removeFirstChannelById rest cid

/-- `Channel.findByIdAndUpdate(id, {messageCount: 0})`. -/
def channelZeroCountById : List Channel → Nat → List Channel
  | [], _ => []
  | c :: rest, cid =>
    if c.cid == cid then { c with messageCount := 0 } :: rest
    else c :: channelZeroCountById rest cid

/-- `Message.findById`. -/
def findMessageById (msgs : List Message) (mid : Nat) : Option Message :=
  msgs.find? (fun m => m.mid == mid)

/-- `Message.findByIdAndDelete`. -/
def removeFirstMessageById : List Message → Nat → List Message
  | [], _ => []
  | m :: rest, mid => if m.mid == mid then rest else m :: removeFirstMessageById rest mid

/-- The payload of the `join` event when it is not `null`. -/
structure JoinData where
  username : String
  walletAddress : String
  avatar : Option String
  role : Option String
deriving DecidableEq, Repr

/-- The payload of `sendMessage`/`broadcastMessage`. -/
structure MessageData where
  text : String
  channel : Option String
deriving DecidableEq, Repr

/-- `messageData.channel || 'general'`. -/
def resolveChannel : Option String → String
  | none => "general"
  | some c => if truthyStr c then c else "general"

/-- The whitespace trimming applied by the mongoose `trim: true` setters
(an executable equivalent of `String.trim`). -/
def jsTrim (s : String) : String :=
  ⟨((s.data.dropWhile Char.isWhitespace).reverse.dropWhile Char.isWhitespace).reverse⟩

/-- `new Message({...})`: the mongoose trim setters are applied to the
string fields. -/
def mkMessage (u : User) (text ch : String) (isB : Bool) (mid now : Nat) : Message :=
  { mid := mid, username := jsTrim u.username, text := jsTrim text, channel := ch,
    avatar := u.avatar, isBroadcast := isB, userId := u.uid, timestamp := now }

/-- `message.save()` validation per `messageSchema`: username and text
required (nonempty after trim), text at most 1000 characters, channel in
the enum. -/
def validMessage (m : Message) : Bool :=
  truthyStr m.username && truthyStr m.text && m.text.length ≤ 1000 && channels.contains m.channel

/-- The standard precondition-failure reply of the message handlers. -/
def reconnectError : Emission :=
  ⟨Target.originator, Event.messageError "User not found. Please reconnect."⟩

/-- The `join` handler (second variant).  `d = none` models the client
sending `null` (explicit leave); a payload with a falsy username or wallet
address falls through both branches and does nothing. -/
def handleJoin (st : ServerState) (s : Nat) (d : Option JoinData) (now : Nat) :
    ServerState × List Emission :=
  match d with
  | some data =>
    if truthyStr data.username && truthyStr data.walletAddress then
      match findUserByOr st.users data.username data.walletAddress with
      | some u =>
        let u' := { u with
          isOnline := true, socketId := some s, lastSeen := now,
          avatar := orElseTruthy data.avatar u.avatar,
          role := orElseTruthy data.role u.role }
        ({ st with users := updateFirstUser st.users u.uid (fun _ => u'),
                   activeConnections := mapSet st.activeConnections s u.uid },
         [⟨Target.others, Event.userJoined u'.username u'.avatar true⟩])
      | none =>
        let u : User := { uid := st.nextUserId, username := data.username,
                          walletAddress := data.walletAddress,
                          avatar := orElseTruthy data.avatar none,
                          role := orElseTruthy data.role (some "user"),
                          isOnline := true, socketId := some s, lastSeen := now }
        ({ st with users := st.users ++ [u], nextUserId := st.nextUserId + 1,
                   activeConnections := mapSet st.activeConnections s u.uid },
         [⟨Target.others, Event.userJoined u.username u.avatar true⟩])
    else (st, [])
  | none =>
    match mapGet st.activeConnections s with
    | some uid =>
      match findUserById st.users uid with
      | some u =>
        ({ st with users := updateFirstUser st.users uid
                     (fun v => { v with isOnline := false, socketId := none }),
                   activeConnections := mapDelete st.activeConnections s },
         [⟨Target.others, Event.userLeft u.username u.avatar⟩])
      | none => (st, [])
    | none => (st, [])

/-- The `disconnect` handler.  Unlike the explicit-leave branch of `join`,
the registry entry is removed even when the user document is missing. -/
def handleDisconnect (st : ServerState) (s : Nat) : ServerState × List Emission :=
  match mapGet st.activeConnections s with
  | some uid =>
    match findUserById st.users uid with
    | some u =>
      ({ st with users := updateFirstUser st.users uid
                   (fun v => { v with isOnline := false, socketId := none }),
                 activeConnections := mapDelete st.activeConnections s },
       [⟨Target.others, Event.userLeft u.username u.avatar⟩])
    | none =>
      ({ st with activeConnections := mapDelete st.activeConnections s }, [])
  | none => (st, [])

/-- The `typing` handler: relay to the other connections when the socket is
bound, otherwise do nothing at all. -/
def handleTyping (st : ServerState) (s : Nat) (isTyping : Bool) :
    ServerState × List Emission :=
  match mapGet st.activeConnections s with
  | some uid => (st, [⟨Target.others, Event.userTyping uid isTyping⟩])
  | none => (st, [])

/-- The `sendMessage` handler of the first server variant. -/
def sendMessageV1 (st : ServerState) (s : Nat) (data : MessageData) (now : Nat) :
    ServerState × List Emission :=
  match mapGet st.activeConnections s with
  | none => (st, [reconnectError])
  | some uid =>
    match findUserById st.users uid with
    | none => (st, [reconnectError])
    | some u =>
      if !u.isOnline then (st, [reconnectError])
      else
        let ch := resolveChannel data.channel
        let m := mkMessage u data.text ch false st.nextMessageId now
        if validMessage m then
          ({ st with messages := st.messages ++ [m],
                     channelStore := channelUpdateFirst st.channelStore ch now,
                     nextMessageId := st.nextMessageId + 1 },
           [⟨Target.all, Event.newMessage m.mid m.username m.text m.timestamp
               m.avatar m.channel m.isBroadcast⟩])
        else (st, [⟨Target.originator, Event.messageError "Server error processing message"⟩])

/-- The `sendMessage` handler of the second server variant. -/
def sendMessageV2 (st : ServerState) (s : Nat) (data : MessageData) (now : Nat) :
    ServerState × List Emission :=
  match mapGet st.activeConnections s with
  | none => (st, [reconnectError])
  | some uid =>
    match findUserById st.users uid with
    | none => (st, [reconnectError])
    | some u =>
      if !u.isOnline then (st, [reconnectError])
      else
        let ch := resolveChannel data.channel
        let m := mkMessage u data.text ch false st.nextMessageId now
        if validMessage m then
          ({ st with messages := st.messages ++ [m],
                     channelStore := channelUpdateFirst st.channelStore ch now,
                     nextMessageId := st.nextMessageId + 1 },
           [⟨Target.all, Event.newMessage m.mid m.username m.text m.timestamp
               m.avatar m.channel m.isBroadcast⟩])
        else (st, [⟨Target.originator, Event.messageError "Server error processing message"⟩])

/-- Result of the `broadcastMessage` per-channel loop: the collections as
left behind by the writes, the accumulated `broadcastMessages` array, and
whether the loop ran to completion. -/
structure BroadcastResult where
  messages : List Message
  channelStore : List Channel
  nextMessageId : Nat
  emitted : List Message
  ok : Bool
deriving DecidableEq, Repr

/-- The `for (const channelName of channels)` loop of `broadcastMessage`.
`failIdx = some i` models `message.save()` throwing on the i-th iteration
(a store failure); an invalid message also throws.  A throw aborts the
loop, keeping the writes already performed. -/
def broadcastLoop (u : User) (text : String) (now : Nat) (failIdx : Option Nat) :
    List String → Nat → List Message → List Channel → Nat → List Message → BroadcastResult
  | [], _, msgs, chans, nid, acc => ⟨msgs, chans, nid, acc, true⟩
  | name :: rest, idx, msgs, chans, nid, acc =>
    let m := mkMessage u text name true nid now
    if failIdx == some idx || !(validMessage m) then ⟨msgs, chans, nid, acc, false⟩
    else broadcastLoop u text now failIdx rest (idx + 1) (msgs ++ [m])
           (channelUpdateFirst chans name now) (nid + 1) (acc ++ [m])

/-- The `broadcastMessage` handler.  On completion every accumulated
message is emitted to all connections; a throw anywhere in the loop is
caught and answered with a single `messageError` to the originator. -/
def broadcastMessage (st : ServerState) (s : Nat) (data : MessageData)
    (failIdx : Option Nat) (now : Nat) : ServerState × List Emission :=
  match mapGet st.activeConnections s with
  | none => (st, [reconnectError])
  | some uid =>
    match findUserById st.users uid with
    | none => (st, [reconnectError])
    | some u =>
      if !u.isOnline then (st, [reconnectError])
      else
        let r := broadcastLoop u data.text now failIdx channels 0
                   st.messages st.channelStore st.nextMessageId []
        let st' := { st with messages := r.messages, channelStore := r.channelStore,
                             nextMessageId := r.nextMessageId }
        if r.ok then
          (st', r.emitted.map (fun m => ⟨Target.all, Event.newMessage m.mid m.username
             m.text m.timestamp m.avatar m.channel m.isBroadcast⟩))
        else
          (st', [⟨Target.originator, Event.messageError "Server error processing broadcast message"⟩])

/-- Find-or-create of the `system` user shared by channel creation and
startup initialization. -/
def ensureSystemUser (st : ServerState) : ServerState × Nat :=
  match st.users.find? (fun u => u.username == "system") with
  | some su => (st, su.uid)
  | none =>
    let su : User := { uid := st.nextUserId, username := "system",
                       walletAddress := "0x0000000000000000000000000000000000000000",
                       avatar := none, role := none, isOnline := false,
                       socketId := none, lastSeen := 0 }
    ({ st with users := st.users ++ [su], nextUserId := st.nextUserId + 1 }, su.uid)

/-- `POST /api/channels`: returns the state and the HTTP status. -/
def createChannel (st : ServerState) (name description : String) : ServerState × Nat :=
  if !(truthyStr name) then (st, 400)
  else
    match findChannelByName st.channelStore name.toLower with
    | some _ => (st, 400)
    | none =>
      let p := ensureSystemUser st
      let desc := jsTrim (if truthyStr description then description else "Channel for " ++ name)
      if desc.length > 200 then (p.1, 500)
      else
        let c : Channel := { cid := p.1.nextChannelId, name := name.toLower,
                             description := desc, isActive := true, messageCount := 0,
                             lastMessageAt := none, createdBy := p.2 }
        ({ p.1 with channelStore := p.1.channelStore ++ [c],
                    nextChannelId := p.1.nextChannelId + 1 }, 201)

/-- `DELETE /api/channels/:id`: delete the messages of the channel, then
the channel. -/
def deleteChannel (st : ServerState) (cid : Nat) : ServerState × Nat :=
  match findChannelById st.channelStore cid with
  | none => (st, 404)
  | some c =>
    ({ st with messages := st.messages.filter (fun m => !(m.channel == c.name)),
               channelStore := removeFirstChannelById st.channelStore cid }, 200)

/-- `DELETE /api/messages/:id`. -/
def deleteMessage (st : ServerState) (mid : Nat) : ServerState × Nat :=
  match findMessageById st.messages mid with
  | none => (st, 404)
  | some m =>
    ({ st with messages := removeFirstMessageById st.messages mid,
               channelStore := channelIncFirst st.channelStore m.channel (-1) }, 200)

/-- `DELETE /api/channels/:id/messages`: bulk clear. -/
def clearChannelMessages (st : ServerState) (cid : Nat) : ServerState × Nat :=
  match findChannelById st.channelStore cid with
  | none => (st, 404)
  | some c =>
    ({ st with messages := st.messages.filter (fun m => !(m.channel == c.name)),
               channelStore := channelZeroCountById st.channelStore cid }, 200)

/-- The state of a fresh process before startup initialization. -/
def emptyState : ServerState :=
  { users := [], messages := [], channelStore := [], activeConnections := [],
    nextUserId := 0, nextMessageId := 0, nextChannelId := 0 }

/-- The per-name body of `initializeChannels`. -/
def initChannelsLoop (suid : Nat) : List String → ServerState → ServerState
  | [], st => st
  | n :: rest, st =>
    match findChannelByName st.channelStore n with
    | some _ => initChannelsLoop suid rest st
    | none =>
      initChannelsLoop suid rest
        { st with
          channelStore := st.channelStore ++
            [{ cid := st.nextChannelId, name := n,
               description := "Default " ++ n ++ " channel", isActive := true,
               messageCount := 0, lastMessageAt := none, createdBy := suid }],
          nextChannelId := st.nextChannelId + 1 }

/-- `initializeChannels` of the second variant (voice channels are not
modelled: no claim concerns them and they touch no modelled collection). -/
def initializeChannels (st : ServerState) : ServerState :=
  let p := ensureSystemUser st
  initChannelsLoop p.2 channels p.1

/-- The state right after startup. -/
def initState : ServerState := initializeChannels emptyState

/-- One server event, as a relation between states. -/
inductive Step : ServerState → ServerState → Prop where
  | join (st : ServerState) (s : Nat) (d : Option JoinData) (now : Nat) :
      Step st (handleJoin st s d now).1
  | send (st : ServerState) (s : Nat) (d : MessageData) (now : Nat) :
      Step st (sendMessageV2 st s d now).1
  | broadcast (st : ServerState) (s : Nat) (d : MessageData) (failIdx : Option Nat) (now : Nat) :
      Step st (broadcastMessage st s d failIdx now).1
  | typing (st : ServerState) (s : Nat) (b : Bool) :
      Step st (handleTyping st s b).1
  | disconnect (st : ServerState) (s : Nat) :
      Step st (handleDisconnect st s).1
  | createCh (st : ServerState) (name description : String) :
      Step st (createChannel st name description).1
  | deleteCh (st : ServerState) (cid : Nat) :
      Step st (deleteChannel st cid).1
  | deleteMsg (st : ServerState) (mid : Nat) :
      Step st (deleteMessage st mid).1
  | clearMsgs (st : ServerState) (cid : Nat) :
      Step st (clearChannelMessages st cid).1

/-- Reachability from the post-startup state. -/
inductive Reached : ServerState → Prop where
  | init : Reached initState
  | step {st st' : ServerState} : Reached st → Step st st' → Reached st'

/-- Some connection in the registry is bound to this user id. -/
def boundToUser (conns : List (Nat × Nat)) (uid : Nat) : Bool :=
  conns.any (fun e => e.2 == uid)

/-- The presence/registry equivalence of the spec: a user is online iff
some live connection is bound to them. -/
def presenceInv (st : ServerState) : Bool :=
  st.users.all (fun u => u.isOnline == boundToUser st.activeConnections u.uid)

/-- Side condition under which a valid join preserves the presence
equivalence: the originating connection is unbound, or already bound to
the very user the join resolves to. -/
def joinSafe (st : ServerState) (s : Nat) (d : JoinData) : Bool :=
  match findUserByOr st.users d.username d.walletAddress with
  | some u =>
    match mapGet st.activeConnections s with
    | none => true
    | some w => w == u.uid
  | none => (mapGet st.activeConnections s).isNone

/-- Side condition under which a leave/disconnect preserves the presence
equivalence: the leaving connection is the only one bound to its user. -/
def leaveSafe (st : ServerState) (s : Nat) : Bool :=
  match mapGet st.activeConnections s with
  | none => true
  | some uid => st.activeConnections.all (fun e => !(e.2 == uid) || (e.1 == s))

/-- Bookkeeping invariant: the id allocator is ahead of every stored user. -/
def freshUserId (st : ServerState) : Bool :=
  st.users.all (fun v => !(v.uid == st.nextUserId))

/-- The list of messages a completed broadcast loop persists: one per
channel name, with consecutive ids. -/
def mkBroadcast (u : User) (text : String) (now : Nat) : List String → Nat → List Message
  | [], _ => []
  | n :: rest, nid => mkMessage u text n true nid now :: mkBroadcast u text now rest (nid + 1)

/-- The channel-store updates a broadcast loop performs, in loop order. -/
def updateChannels (now : Nat) : List String → List Channel → List Channel
  | [], chans => chans
  | n :: rest, chans => updateChannels now rest (channelUpdateFirst chans n now)

/-- Join payload used in concrete traces. -/
def aliceJoin : JoinData := ⟨"alice", "0xAAA", none, none⟩

/-- A second, unrelated join payload used in concrete traces. -/
def bobJoin : JoinData := ⟨"bob", "0xBBB", none, none⟩

/-- State after `alice` joined on socket 0. -/
def traceStA : ServerState := (handleJoin initState 0 (some aliceJoin) 1).1

/-- State after the `general` channel (id 0) was deleted through the admin
route. -/
def traceStB : ServerState := (deleteChannel traceStA 0).1

/-- State after `alice` then sent "hi" with no channel given (defaulting to
`general`, which no longer exists in the store). -/
def traceStC : ServerState := (sendMessageV2 traceStB 0 ⟨"hi", none⟩ 9).1

/-- State after `bob` joined on socket 0 while the socket was still bound
to `alice`. -/
def traceStRebind : ServerState := (handleJoin traceStA 0 (some bobJoin) 2).1

/-!  General lemmas about the store and registry primitives.  -/

theorem presenceInv_iff (st : ServerState) :
    presenceInv st = true ↔
      ∀ u ∈ st.users, u.isOnline = boundToUser st.activeConnections u.uid := by
  simp [presenceInv, List.all_eq_true]

theorem boundToUser_iff (m : List (Nat × Nat)) (w : Nat) :
    boundToUser m w = true ↔ ∃ e ∈ m, e.2 = w := by
  simp [boundToUser, List.any_eq_true]

theorem boundToUser_append (m₁ m₂ : List (Nat × Nat)) (w : Nat) :
    boundToUser (m₁ ++ m₂) w = (boundToUser m₁ w || boundToUser m₂ w) := by
  simp [boundToUser, List.any_append]

theorem mapGet_eq_none_iff (m : List (Nat × Nat)) (k : Nat) :
    mapGet m k = none ↔ ∀ e ∈ m, e.1 ≠ k := by
  simp [mapGet, List.find?_eq_none]

theorem mapGet_cons_pos (e : Nat × Nat) (t : List (Nat × Nat)) (k : Nat)
    (h : e.1 = k) : mapGet (e :: t) k = some e.2 := by
  rw [mapGet, List.find?_cons_of_pos _ (by simp [h])]
  rfl

theorem mapGet_cons_neg (e : Nat × Nat) (t : List (Nat × Nat)) (k : Nat)
    (h : e.1 ≠ k) : mapGet (e :: t) k = mapGet t k := by
  rw [mapGet, List.find?_cons_of_neg _ (by simp [h])]
  rfl

theorem mapGet_mem (m : List (Nat × Nat)) (k v : Nat) (h : mapGet m k = some v) :
    (k, v) ∈ m := by
  induction m with
  | nil => simp [mapGet] at h
  | cons e t ih =>
    by_cases he : e.1 = k
    · rw [mapGet_cons_pos _ _ _ he] at h
      have : e = (k, v) := by cases e; simp_all
      simp [this]
    · rw [mapGet_cons_neg _ _ _ he] at h
      exact List.mem_cons_of_mem _ (ih h)

theorem mapSet_of_get_none (m : List (Nat × Nat)) (k v : Nat)
    (h : mapGet m k = none) : mapSet m k v = m ++ [(k, v)] := by
  induction m with
  | nil => rfl
  | cons e t ih =>
    by_cases he : e.1 = k
    · rw [mapGet_cons_pos _ _ _ he] at h
      cases h
    · rw [mapGet_cons_neg _ _ _ he] at h
      simp [mapSet, he, ih h]

theorem mapSet_of_get_eq (m : List (Nat × Nat)) (k v : Nat)
    (h : mapGet m k = some v) : mapSet m k v = m := by
  induction m with
  | nil => simp [mapGet] at h
  | cons e t ih =>
    by_cases he : e.1 = k
    · rw [mapGet_cons_pos _ _ _ he] at h
      have : e = (k, v) := by cases e; simp_all
      simp [mapSet, he, this]
    · rw [mapGet_cons_neg _ _ _ he] at h
      simp [mapSet, he, ih h]

theorem mapGet_of_mem_nodup (m : List (Nat × Nat)) (e : Nat × Nat)
    (hKeys : (m.map Prod.fst).Nodup) (he : e ∈ m) : mapGet m e.1 = some e.2 := by
  induction m with
  | nil => cases he
  | cons a t ih =>
    rw [List.map_cons, List.nodup_cons] at hKeys
    rcases List.mem_cons.1 he with rfl | he'
    · exact mapGet_cons_pos _ _ _ rfl
    · have hne : a.1 ≠ e.1 := by
        intro hcontra
        exact hKeys.1 (hcontra ▸ List.mem_map_of_mem Prod.fst he')
      rw [mapGet_cons_neg _ _ _ hne]
      exact ih hKeys.2 he'

theorem mem_mapDelete_iff (m : List (Nat × Nat)) (k : Nat) (e : Nat × Nat) :
    e ∈ mapDelete m k ↔ e ∈ m ∧ e.1 ≠ k := by
  simp [mapDelete, List.mem_filter]

theorem boundToUser_mapDelete_false (m : List (Nat × Nat)) (s uid : Nat)
    (hsafe : ∀ e ∈ m, e.2 = uid → e.1 = s) :
    boundToUser (mapDelete m s) uid = false := by
  rw [← Bool.not_eq_true, boundToUser_iff]
  rintro ⟨e, he, hv⟩
  rw [mem_mapDelete_iff] at he
  exact he.2 (hsafe e he.1 hv)

theorem boundToUser_mapDelete_of_ne (m : List (Nat × Nat)) (s uid w : Nat)
    (hKeys : (m.map Prod.fst).Nodup) (hget : mapGet m s = some uid) (hw : w ≠ uid) :
    boundToUser (mapDelete m s) w = boundToUser m w := by
  rcases hb : boundToUser m w with _ | _
  · rw [← Bool.not_eq_true] at hb ⊢
    rw [boundToUser_iff] at hb ⊢
    rintro ⟨e, he, hv⟩
    exact hb ⟨e, (mem_mapDelete_iff m s e).1 he |>.1, hv⟩
  · rw [boundToUser_iff] at hb ⊢
    rcases hb with ⟨e, he, hv⟩
    refine ⟨e, ?_, hv⟩
    rw [mem_mapDelete_iff]
    refine ⟨he, fun hek => ?_⟩
    have := mapGet_of_mem_nodup m e hKeys he
    rw [hek, hget] at this
    exact hw (by simpa [hv] using (Option.some.inj this).symm)

/-!  Lemmas about the per-collection update primitives.  -/

theorem updateFirstUser_of_not_mem (users : List User) (uid : Nat) (f : User → User)
    (h : ∀ v ∈ users, v.uid ≠ uid) : updateFirstUser users uid f = users := by
  induction users with
  | nil => rfl
  | cons u t ih =>
    rw [updateFirstUser, if_neg (by simp [h u (List.mem_cons_self u t)])]
    rw [ih (fun v hv => h v (List.mem_cons_of_mem u hv))]

theorem updateFirstUser_append (l1 l2 : List User) (u : User) (f : User → User)
    (h : ∀ v ∈ l1, v.uid ≠ u.uid) :
    updateFirstUser (l1 ++ u :: l2) u.uid f = l1 ++ f u :: l2 := by
  induction l1 with
  | nil => simp [updateFirstUser]
  | cons a t ih =>
    rw [List.cons_append, updateFirstUser,
      if_neg (by simp [h a (List.mem_cons_self a t)]), List.cons_append,
      ih (fun v hv => h v (List.mem_cons_of_mem a hv))]

theorem mem_updateFirstUser (users : List User) (uid : Nat) (f : User → User)
    (v : User) (hv : v ∈ updateFirstUser users uid f) :
    (∃ w ∈ users, w.uid = uid ∧ v = f w) ∨ v ∈ users := by
  induction users with
  | nil => cases hv
  | cons u t ih =>
    rw [updateFirstUser] at hv
    by_cases hu : u.uid = uid
    · rw [if_pos (by simp [hu])] at hv
      rcases List.mem_cons.1 hv with rfl | hv'
      · exact Or.inl ⟨u, List.mem_cons_self u t, hu, rfl⟩
      · exact Or.inr (List.mem_cons_of_mem u hv')
    · rw [if_neg (by simp [hu])] at hv
      rcases List.mem_cons.1 hv with rfl | hv'
      · exact Or.inr (List.mem_cons_self v t)
      · rcases ih hv' with ⟨w, hw, hwu, hvf⟩ | hmem
        · exact Or.inl ⟨w, List.mem_cons_of_mem u hw, hwu, hvf⟩
        · exact Or.inr (List.mem_cons_of_mem u hmem)

theorem findUserByOr_split (users : List User) (uname wallet : String) (u : User)
    (h : findUserByOr users uname wallet = some u) :
    ∃ l1 l2, users = l1 ++ u :: l2 ∧
      ∀ v ∈ l1, v.username ≠ uname ∧ v.walletAddress ≠ wallet := by
  rw [findUserByOr, List.find?_eq_some] at h
  rcases h with ⟨-, l1, l2, hsplit, hl1⟩
  refine ⟨l1, l2, hsplit, fun v hv => ?_⟩
  have := hl1 v hv
  simp only [Bool.not_eq_true', Bool.or_eq_false_iff, beq_eq_false_iff_ne] at this
  exact this

theorem findUserById_eq_none_iff (users : List User) (uid : Nat) :
    findUserById users uid = none ↔ ∀ v ∈ users, v.uid ≠ uid := by
  simp [findUserById, List.find?_eq_none]

theorem userMap_eq_self {g : User → User} :
    ∀ (l : List User), (∀ w ∈ l, g w = w) → l.map g = l
  | [], _ => rfl
  | a :: t, h => by
    rw [List.map_cons, h a (List.mem_cons_self a t),
      userMap_eq_self t (fun w hw => h w (List.mem_cons_of_mem a hw))]

theorem updateFirstUser_eq_map (users : List User) (uid : Nat) (f : User → User)
    (h : (users.map User.uid).Nodup) :
    updateFirstUser users uid f =
      users.map (fun v => if v.uid = uid then f v else v) := by
  induction users with
  | nil => rfl
  | cons a t ih =>
    rw [List.map_cons, List.nodup_cons] at h
    by_cases ha : a.uid = uid
    · rw [updateFirstUser, if_pos (by simp [ha]), List.map_cons, if_pos ha]
      congr 1
      refine (userMap_eq_self t ?_).symm
      intro w hw
      rw [if_neg]
      intro hww
      exact h.1 (by rw [← ha] at hww; exact hww ▸ List.mem_map_of_mem User.uid hw)
    · rw [updateFirstUser, if_neg (by simp [ha]), List.map_cons, if_neg ha, ih h.2]

theorem freshUserId_iff (st : ServerState) :
    freshUserId st = true ↔ ∀ v ∈ st.users, v.uid ≠ st.nextUserId := by
  simp [freshUserId, List.all_eq_true]

theorem joinSafe_of_none (st : ServerState) (s : Nat) (d : JoinData)
    (hfind : findUserByOr st.users d.username d.walletAddress = none)
    (hs : joinSafe st s d = true) : mapGet st.activeConnections s = none := by
  unfold joinSafe at hs
  rw [hfind] at hs
  dsimp only at hs
  exact Option.isNone_iff_eq_none.1 hs

theorem joinSafe_of_some (st : ServerState) (s : Nat) (d : JoinData) (u : User)
    (hfind : findUserByOr st.users d.username d.walletAddress = some u)
    (hs : joinSafe st s d = true) :
    mapGet st.activeConnections s = none ∨ mapGet st.activeConnections s = some u.uid := by
  unfold joinSafe at hs
  rw [hfind] at hs
  dsimp only at hs
  rcases hget : mapGet st.activeConnections s with _ | w
  · exact Or.inl rfl
  · rw [hget] at hs
    dsimp only at hs
    exact Or.inr (by rw [beq_iff_eq.1 hs])

theorem leaveSafe_spec (st : ServerState) (s uid : Nat)
    (hget : mapGet st.activeConnections s = some uid) (hs : leaveSafe st s = true) :
    ∀ e ∈ st.activeConnections, e.2 = uid → e.1 = s := by
  unfold leaveSafe at hs
  rw [hget] at hs
  dsimp only at hs
  intro e he hv
  have h2 := List.all_eq_true.1 hs e he
  rw [hv] at h2
  simpa using h2

theorem presence_preserved_join (st : ServerState) (s now : Nat) (d : JoinData)
    (hInv : presenceInv st = true)
    (hUid : (st.users.map User.uid).Nodup)
    (hsafe : joinSafe st s d = true)
    (hfresh : freshUserId st = true) :
    presenceInv (handleJoin st s (some d) now).1 = true := by
  rw [handleJoin]
  dsimp only
  by_cases hvalid : (truthyStr d.username && truthyStr d.walletAddress) = true
  case neg =>
    rw [if_neg hvalid]
    exact hInv
  case pos =>
    rw [if_pos hvalid]
    rcases hfind : findUserByOr st.users d.username d.walletAddress with _ | u
    · dsimp only
      have hget := joinSafe_of_none st s d hfind hsafe
      rw [presenceInv_iff]
      intro v hv
      dsimp only at hv ⊢
      rw [mapSet_of_get_none _ _ _ hget]
      rcases List.mem_append.1 hv with hvold | hvnew
      · have hInvV := (presenceInv_iff st).1 hInv v hvold
        rw [boundToUser_append]
        have hbn : boundToUser [(s, st.nextUserId)] v.uid = false := by
          simp only [boundToUser, List.any_cons, List.any_nil, Bool.or_false]
          simp only [beq_eq_false_iff_ne]
          exact fun h => ((freshUserId_iff st).1 hfresh v hvold) h.symm
        rw [hbn, Bool.or_false]
        exact hInvV
      · rcases List.mem_singleton.1 hvnew with rfl
        rw [boundToUser_append]
        simp [boundToUser]
    · dsimp only
      rw [presenceInv_iff]
      intro v hv
      dsimp only at hv ⊢
      rw [updateFirstUser_eq_map _ _ _ hUid] at hv
      rcases List.mem_map.1 hv with ⟨w, hw, hweq⟩
      by_cases hwu : w.uid = u.uid
      · rw [if_pos hwu] at hweq
        subst hweq
        rcases joinSafe_of_some st s d u hfind hsafe with hget | hget
        · rw [mapSet_of_get_none _ _ _ hget, boundToUser_append]
          simp [boundToUser]
        · rw [mapSet_of_get_eq _ _ _ hget]
          have hb : boundToUser st.activeConnections u.uid = true :=
            (boundToUser_iff _ _).2 ⟨(s, u.uid), mapGet_mem _ _ _ hget, rfl⟩
          simp [hb]
      · rw [if_neg hwu] at hweq
        subst hweq
        have hInvW := (presenceInv_iff st).1 hInv w hw
        rcases joinSafe_of_some st s d u hfind hsafe with hget | hget
        · rw [mapSet_of_get_none _ _ _ hget, boundToUser_append]
          have hbn : boundToUser [(s, u.uid)] w.uid = false := by
            simp only [boundToUser, List.any_cons, List.any_nil, Bool.or_false]
            simp only [beq_eq_false_iff_ne]
            exact fun h => hwu h.symm
          rw [hbn, Bool.or_false]
          exact hInvW
        · rw [mapSet_of_get_eq _ _ _ hget]
          exact hInvW

theorem presence_preserved_offline (st : ServerState) (s uid : Nat) (u : User)
    (hInv : presenceInv st = true)
    (hUid : (st.users.map User.uid).Nodup)
    (hKeys : (st.activeConnections.map Prod.fst).Nodup)
    (hget : mapGet st.activeConnections s = some uid)
    (_hfind : findUserById st.users uid = some u)
    (hsafe : ∀ e ∈ st.activeConnections, e.2 = uid → e.1 = s) :
    presenceInv
      { st with
        users := updateFirstUser st.users uid
          (fun v => { v with isOnline := false, socketId := none }),
        activeConnections := mapDelete st.activeConnections s } = true := by
  rw [presenceInv_iff]
  intro v hv
  dsimp only at hv ⊢
  rw [updateFirstUser_eq_map _ _ _ hUid] at hv
  rcases List.mem_map.1 hv with ⟨w, hw, hweq⟩
  by_cases hwu : w.uid = uid
  · rw [if_pos hwu] at hweq
    subst hweq
    show false = boundToUser (mapDelete st.activeConnections s) w.uid
    rw [hwu, boundToUser_mapDelete_false _ _ _ hsafe]
  · rw [if_neg hwu] at hweq
    subst hweq
    rw [boundToUser_mapDelete_of_ne _ _ _ _ hKeys hget hwu]
    exact (presenceInv_iff st).1 hInv w hw

theorem findChannelByName_cons_pos (c : Channel) (rest : List Channel) (m : String)
    (h : c.name = m) : findChannelByName (c :: rest) m = some c := by
  rw [findChannelByName, List.find?_cons_of_pos _ (by simp [h])]

theorem findChannelByName_cons_neg (c : Channel) (rest : List Channel) (m : String)
    (h : c.name ≠ m) : findChannelByName (c :: rest) m = findChannelByName rest m := by
  rw [findChannelByName, List.find?_cons_of_neg _ (by simp [h])]
  rfl

theorem findChannelByName_channelUpdateFirst (l : List Channel) (n : String)
    (t : Nat) (m : String) :
    findChannelByName (channelUpdateFirst l n t) m =
      if m = n then
        (findChannelByName l n).map
          (fun c => { c with lastMessageAt := some t, messageCount := c.messageCount + 1 })
      else findChannelByName l m := by
  induction l with
  | nil => simp [channelUpdateFirst, findChannelByName]
  | cons c rest ih =>
    by_cases hcn : c.name = n
    · rw [channelUpdateFirst, if_pos (by simp [hcn])]
      by_cases hmn : m = n
      · subst hmn
        rw [findChannelByName_cons_pos
            { c with lastMessageAt := some t, messageCount := c.messageCount + 1 } rest m hcn,
          findChannelByName_cons_pos c rest m hcn]
        simp
      · rw [if_neg hmn,
          findChannelByName_cons_neg _ _ _ (by rw [hcn]; exact fun h => hmn h.symm),
          findChannelByName_cons_neg _ _ _ (by rw [hcn]; exact fun h => hmn h.symm)]
    · rw [channelUpdateFirst, if_neg (by simp [hcn])]
      by_cases hcm : c.name = m
      · have hmn : ¬m = n := fun h => hcn (hcm.trans h)
        rw [if_neg hmn, findChannelByName_cons_pos _ _ _ hcm,
          findChannelByName_cons_pos _ _ _ hcm]
      · rw [findChannelByName_cons_neg _ _ _ hcm, ih]
        by_cases hmn : m = n
        · rw [if_pos hmn, if_pos hmn, findChannelByName_cons_neg _ _ _ hcn]
        · rw [if_neg hmn, if_neg hmn, findChannelByName_cons_neg _ _ _ hcm]

theorem findChannelByName_of_mem_nodup (l : List Channel) (c : Channel)
    (hnd : (l.map Channel.name).Nodup) (hc : c ∈ l) :
    findChannelByName l c.name = some c := by
  induction l with
  | nil => cases hc
  | cons a rest ih =>
    rw [List.map_cons, List.nodup_cons] at hnd
    rcases List.mem_cons.1 hc with rfl | hc'
    · rw [findChannelByName, List.find?_cons_of_pos _ (by simp)]
    · have hne : a.name ≠ c.name := by
        intro hcontra
        exact hnd.1 (hcontra ▸ List.mem_map_of_mem Channel.name hc')
      rw [findChannelByName, List.find?_cons_of_neg _ (by simp [hne])]
      exact ih hnd.2 hc'

theorem mem_removeFirstChannelById (l : List Channel) (cid : Nat) (c : Channel)
    (hc : c ∈ l) (hne : c.cid ≠ cid) : c ∈ removeFirstChannelById l cid := by
  induction l with
  | nil => cases hc
  | cons a rest ih =>
    rw [removeFirstChannelById]
    by_cases ha : a.cid = cid
    · rw [if_pos (by simp [ha])]
      rcases List.mem_cons.1 hc with rfl | hc'
      · exact absurd ha hne
      · exact hc'
    · rw [if_neg (by simp [ha])]
      rcases List.mem_cons.1 hc with rfl | hc'
      · exact List.mem_cons_self _ _
      · exact List.mem_cons_of_mem _ (ih hc')

theorem removeFirstChannelById_subset (l : List Channel) (cid : Nat) (c : Channel)
    (hc : c ∈ removeFirstChannelById l cid) : c ∈ l := by
  induction l with
  | nil => cases hc
  | cons a rest ih =>
    rw [removeFirstChannelById] at hc
    by_cases ha : a.cid = cid
    · rw [if_pos (by simp [ha])] at hc
      exact List.mem_cons_of_mem _ hc
    · rw [if_neg (by simp [ha])] at hc
      rcases List.mem_cons.1 hc with rfl | hc'
      · exact List.mem_cons_self _ _
      · exact List.mem_cons_of_mem _ (ih hc')

theorem findChannelById_removeFirst_nodup (l : List Channel) (cid : Nat)
    (hnd : (l.map Channel.cid).Nodup) :
    findChannelById (removeFirstChannelById l cid) cid = none := by
  induction l with
  | nil => rfl
  | cons a rest ih =>
    rw [List.map_cons, List.nodup_cons] at hnd
    rw [removeFirstChannelById]
    by_cases ha : a.cid = cid
    · rw [if_pos (by simp [ha])]
      rw [findChannelById, List.find?_eq_none]
      intro c hc
      simp only [beq_iff_eq]
      intro hcc
      exact hnd.1 (ha ▸ hcc ▸ List.mem_map_of_mem Channel.cid hc)
    · rw [if_neg (by simp [ha])]
      rw [findChannelById, List.find?_cons_of_neg _ (by simp [ha])]
      exact ih hnd.2

theorem mem_removeFirstMessageById (l : List Message) (mid : Nat) (m : Message)
    (hm : m ∈ removeFirstMessageById l mid) : m ∈ l := by
  induction l with
  | nil => cases hm
  | cons a rest ih =>
    rw [removeFirstMessageById] at hm
    by_cases ha : a.mid = mid
    · rw [if_pos (by simp [ha])] at hm
      exact List.mem_cons_of_mem _ hm
    · rw [if_neg (by simp [ha])] at hm
      rcases List.mem_cons.1 hm with rfl | hm'
      · exact List.mem_cons_self _ _
      · exact List.mem_cons_of_mem _ (ih hm')

/-!  How each operation acts on the message collection.  -/

theorem handleJoin_messages (st : ServerState) (s : Nat) (d : Option JoinData)
    (now : Nat) : (handleJoin st s d now).1.messages = st.messages := by
  rcases d with _ | data <;> rw [handleJoin] <;> (repeat' split) <;> rfl

theorem handleDisconnect_messages (st : ServerState) (s : Nat) :
    (handleDisconnect st s).1.messages = st.messages := by
  rw [handleDisconnect]
  (repeat' split) <;> rfl

theorem handleTyping_state (st : ServerState) (s : Nat) (b : Bool) :
    (handleTyping st s b).1 = st := by
  rw [handleTyping]
  (repeat' split) <;> rfl

theorem validMessage_contains (m : Message) (h : validMessage m = true) :
    channels.contains m.channel = true := by
  simp only [validMessage, Bool.and_eq_true] at h
  exact h.2

theorem sendMessageV2_messages (st : ServerState) (s : Nat) (d : MessageData)
    (now : Nat) :
    ∀ m ∈ (sendMessageV2 st s d now).1.messages,
      m ∈ st.messages ∨ channels.contains m.channel = true := by
  intro m hm
  rw [sendMessageV2] at hm
  split at hm
  · exact Or.inl hm
  · split at hm
    · exact Or.inl hm
    · split at hm
      · exact Or.inl hm
      · dsimp only at hm
        split at hm
        · next hv =>
          rcases List.mem_append.1 hm with h1 | h2
          · exact Or.inl h1
          · rcases List.mem_singleton.1 h2 with rfl
            exact Or.inr (validMessage_contains _ hv)
        · exact Or.inl hm

theorem broadcastLoop_messages (u : User) (text : String) (now : Nat)
    (failIdx : Option Nat) (names : List String) :
    ∀ (idx : Nat) (msgs : List Message) (chans : List Channel) (nid : Nat)
      (acc : List Message),
      ∀ m ∈ (broadcastLoop u text now failIdx names idx msgs chans nid acc).messages,
        m ∈ msgs ∨ channels.contains m.channel = true := by
  induction names with
  | nil =>
    intro idx msgs chans nid acc m hm
    exact Or.inl hm
  | cons n rest ih =>
    intro idx msgs chans nid acc m hm
    rw [broadcastLoop] at hm
    by_cases hstop : (failIdx == some idx
        || !(validMessage (mkMessage u text n true nid now))) = true
    · rw [if_pos hstop] at hm
      exact Or.inl hm
    · rw [if_neg hstop] at hm
      have hv : validMessage (mkMessage u text n true nid now) = true := by
        by_contra hb
        rw [Bool.not_eq_true] at hb
        exact hstop (by rw [hb]; simp)
      rcases ih (idx + 1) (msgs ++ [mkMessage u text n true nid now]) _ _ _ m hm with hmem | hcont
      · rcases List.mem_append.1 hmem with h1 | h2
        · exact Or.inl h1
        · rcases List.mem_singleton.1 h2 with rfl
          exact Or.inr (validMessage_contains _ hv)
      · exact Or.inr hcont

theorem broadcastMessage_messages (st : ServerState) (s : Nat) (d : MessageData)
    (failIdx : Option Nat) (now : Nat) :
    ∀ m ∈ (broadcastMessage st s d failIdx now).1.messages,
      m ∈ st.messages ∨ channels.contains m.channel = true := by
  intro m hm
  rw [broadcastMessage] at hm
  split at hm
  · exact Or.inl hm
  · split at hm
    · exact Or.inl hm
    · split at hm
      · exact Or.inl hm
      · rename_i uid huid u hu hon
        dsimp only at hm
        split at hm
        · exact broadcastLoop_messages u d.text now failIdx channels 0
            st.messages st.channelStore st.nextMessageId [] m hm
        · exact broadcastLoop_messages u d.text now failIdx channels 0
            st.messages st.channelStore st.nextMessageId [] m hm

theorem ensureSystemUser_messages (st : ServerState) :
    (ensureSystemUser st).1.messages = st.messages := by
  rw [ensureSystemUser]
  split <;> rfl

theorem createChannel_messages (st : ServerState) (name description : String) :
    (createChannel st name description).1.messages = st.messages := by
  rw [createChannel]
  split
  · rfl
  · split
    · rfl
    · dsimp only
      (repeat' split) <;> exact ensureSystemUser_messages st

theorem deleteChannel_messages (st : ServerState) (cid : Nat) :
    ∀ m ∈ (deleteChannel st cid).1.messages, m ∈ st.messages := by
  intro m hm
  rw [deleteChannel] at hm
  rcases hf : findChannelById st.channelStore cid with _ | c
  · rw [hf] at hm
    exact hm
  · rw [hf] at hm
    exact (List.mem_filter.1 hm).1

theorem deleteMessage_messages (st : ServerState) (mid : Nat) :
    ∀ m ∈ (deleteMessage st mid).1.messages, m ∈ st.messages := by
  intro m hm
  rw [deleteMessage] at hm
  rcases hf : findMessageById st.messages mid with _ | m0
  · rw [hf] at hm
    exact hm
  · rw [hf] at hm
    exact mem_removeFirstMessageById st.messages mid m hm

theorem clearChannelMessages_messages (st : ServerState) (cid : Nat) :
    ∀ m ∈ (clearChannelMessages st cid).1.messages, m ∈ st.messages := by
  intro m hm
  rw [clearChannelMessages] at hm
  rcases hf : findChannelById st.channelStore cid with _ | c
  · rw [hf] at hm
    exact hm
  · rw [hf] at hm
    exact (List.mem_filter.1 hm).1

/-!  Characterization of the broadcast loop.  -/

theorem broadcastLoop_ok_eq (u : User) (text : String) (now : Nat)
    (hu : truthyStr (jsTrim u.username) = true)
    (ht : truthyStr (jsTrim text) = true)
    (hl : (jsTrim text).length ≤ 1000) :
    ∀ (names : List String), (∀ n ∈ names, channels.contains n = true) →
      ∀ (idx : Nat) (msgs : List Message) (chans : List Channel) (nid : Nat)
        (acc : List Message),
        broadcastLoop u text now none names idx msgs chans nid acc =
          ⟨msgs ++ mkBroadcast u text now names nid,
           updateChannels now names chans, nid + names.length,
           acc ++ mkBroadcast u text now names nid, true⟩ := by
  intro names
  induction names with
  | nil =>
    intro _ idx msgs chans nid acc
    simp [broadcastLoop, mkBroadcast, updateChannels]
  | cons n rest ih =>
    intro hn idx msgs chans nid acc
    have hcn : n ∈ channels := by simpa using hn n (List.mem_cons_self n rest)
    have hv : validMessage (mkMessage u text n true nid now) = true := by
      simp [validMessage, mkMessage, hu, ht, hl, hcn]
    rw [broadcastLoop, if_neg (by simp [hv])]
    rw [ih (fun n' hn' => hn n' (List.mem_cons_of_mem n hn')) (idx + 1)
      (msgs ++ [mkMessage u text n true nid now]) (channelUpdateFirst chans n now)
      (nid + 1) (acc ++ [mkMessage u text n true nid now])]
    simp [mkBroadcast, updateChannels, List.append_assoc]
    omega

theorem broadcastLoop_fail_eq (u : User) (text : String) (now : Nat)
    (hu : truthyStr (jsTrim u.username) = true)
    (ht : truthyStr (jsTrim text) = true)
    (hl : (jsTrim text).length ≤ 1000) :
    ∀ (names : List String), (∀ n ∈ names, channels.contains n = true) →
      ∀ (i idx : Nat) (msgs : List Message) (chans : List Channel) (nid : Nat)
        (acc : List Message), i < names.length →
        broadcastLoop u text now (some (idx + i)) names idx msgs chans nid acc =
          ⟨msgs ++ mkBroadcast u text now (names.take i) nid,
           updateChannels now (names.take i) chans, nid + i,
           acc ++ mkBroadcast u text now (names.take i) nid, false⟩ := by
  intro names
  induction names with
  | nil =>
    intro _ i idx msgs chans nid acc hi
    exact absurd hi (by simp)
  | cons n rest ih =>
    intro hn i idx msgs chans nid acc hi
    cases i with
    | zero =>
      rw [broadcastLoop, if_pos (by simp)]
      simp [mkBroadcast, updateChannels]
    | succ j =>
      have hcn : n ∈ channels := by simpa using hn n (List.mem_cons_self n rest)
      have hv : validMessage (mkMessage u text n true nid now) = true := by
        simp [validMessage, mkMessage, hu, ht, hl, hcn]
      rw [broadcastLoop, if_neg (by simp [hv, beq_iff_eq]; try omega)]
      have harith : idx + (j + 1) = (idx + 1) + j := by omega
      rw [harith, ih (fun n' hn' => hn n' (List.mem_cons_of_mem n hn')) j (idx + 1)
        (msgs ++ [mkMessage u text n true nid now]) (channelUpdateFirst chans n now)
        (nid + 1) (acc ++ [mkMessage u text n true nid now])
        (Nat.lt_of_succ_lt_succ (by simpa using hi))]
      simp [mkBroadcast, updateChannels, List.append_assoc]
      omega

theorem mkBroadcast_map_channel (u : User) (text : String) (now : Nat) :
    ∀ (names : List String) (nid : Nat),
      (mkBroadcast u text now names nid).map Message.channel = names := by
  intro names
  induction names with
  | nil => intro nid; rfl
  | cons n rest ih => intro nid; simp [mkBroadcast, mkMessage, ih]

theorem mkBroadcast_fields (u : User) (text : String) (now : Nat) :
    ∀ (names : List String) (nid : Nat), ∀ m ∈ mkBroadcast u text now names nid,
      m.text = jsTrim text ∧ m.isBroadcast = true := by
  intro names
  induction names with
  | nil =>
    intro nid m hm
    cases hm
  | cons n rest ih =>
    intro nid m hm
    rcases List.mem_cons.1 hm with rfl | hm'
    · exact ⟨rfl, rfl⟩
    · exact ih (nid + 1) m hm'

theorem findChannelByName_updateChannels_not_mem (now : Nat) :
    ∀ (names : List String) (chans : List Channel) (n : String), n ∉ names →
      findChannelByName (updateChannels now names chans) n =
        findChannelByName chans n := by
  intro names
  induction names with
  | nil => intro chans n _; rfl
  | cons m rest ih =>
    intro chans n hn
    rw [updateChannels, ih (channelUpdateFirst chans m now) n
      (fun h => hn (List.mem_cons_of_mem m h)),
      findChannelByName_channelUpdateFirst,
      if_neg (fun h => hn (by rw [h]; exact List.mem_cons_self m rest))]

theorem findChannelByName_updateChannels_mem_once (now : Nat) :
    ∀ (names : List String) (chans : List Channel) (n : String),
      n ∈ names → names.Nodup →
      findChannelByName (updateChannels now names chans) n =
        (findChannelByName chans n).map
          (fun c => { c with
            lastMessageAt := some now, messageCount := c.messageCount + 1 }) := by
  intro names
  induction names with
  | nil => intro chans n hn; cases hn
  | cons m rest ih =>
    intro chans n hn hnd
    rw [List.nodup_cons] at hnd
    rcases List.mem_cons.1 hn with rfl | hn'
    · rw [updateChannels, findChannelByName_updateChannels_not_mem now rest _ n hnd.1,
        findChannelByName_channelUpdateFirst, if_pos rfl]
    · rw [updateChannels, ih (channelUpdateFirst chans m now) n hn' hnd.2,
        findChannelByName_channelUpdateFirst]
      have hne : n ≠ m := fun h => hnd.1 (h ▸ hn')
      rw [if_neg hne]

/-!  The claims.  -/

/-- C10: the `sendMessage` handlers of the two server variants embedded in
the source are extensionally equal: for every registry state, store state
and input event they produce the same successor state and the same
emissions (same persisted record, same counter update, same `newMessage`
broadcast, same `messageError` signals). -/
theorem sendMessage_variants_extensionally_equal :
    ∀ (st : ServerState) (s : Nat) (d : MessageData) (now : Nat),
      sendMessageV1 st s d now = sendMessageV2 st s d now :=
  fun _ _ _ _ => rfl

/-- C8 counterexample: a `typing` event on a connection with no entry in
the Connection Registry emits nothing at all (in particular no
event-specific error signal to the originator, contrary to the claim): at
the initial state, where socket 0 is unbound, the handler returns the
unchanged state and an empty emission list. -/
theorem typing_unbound_counterexample :
    mapGet initState.activeConnections 0 = none ∧
      handleTyping initState 0 true = (initState, []) := by
  constructor
  · rfl
  · rfl

/-- C8 amended: a `typing` event on a connection with no registry entry
performs no state change and no relay, and emits no signal whatsoever
(the event is silently dropped rather than answered with an error). -/
theorem typing_unbound_silent (st : ServerState) (s : Nat) (b : Bool)
    (h : mapGet st.activeConnections s = none) :
    handleTyping st s b = (st, []) := by
  simp [handleTyping, h]

/-- Witness for the amended C8 theorem at a concrete unbound connection. -/
theorem typing_unbound_silent_witness :
    handleTyping initState 3 false = (initState, []) :=
  typing_unbound_silent initState 3 false rfl

/-- C4: a `sendMessage` event whose originating connection is not in the
Connection Registry, or whose resolved user is absent or offline, leaves
the state untouched (zero persisted messages, no counter change) and emits
exactly one `messageError` to the originating connection only. -/
theorem send_unregistered_no_write (st : ServerState) (s : Nat) (d : MessageData)
    (now : Nat)
    (h : mapGet st.activeConnections s = none ∨
         ∃ uid, mapGet st.activeConnections s = some uid ∧
           (findUserById st.users uid = none ∨
            ∃ u, findUserById st.users uid = some u ∧ u.isOnline = false)) :
    sendMessageV2 st s d now = (st, [reconnectError]) := by
  rcases h with h | ⟨uid, h1, h2⟩
  · simp [sendMessageV2, h]
  · rcases h2 with h2 | ⟨u, h2, h3⟩
    · simp [sendMessageV2, h1, h2]
    · simp [sendMessageV2, h1, h2, h3]

/-- Witness for C4: at the initial state socket 0 is unbound, and the
handler replies with exactly the reconnect error and no writes. -/
theorem send_unregistered_no_write_witness :
    sendMessageV2 initState 0 ⟨"hello", none⟩ 5 = (initState, [reconnectError]) :=
  send_unregistered_no_write initState 0 ⟨"hello", none⟩ 5 (Or.inl rfl)

/-- C7: deleting a channel by id removes exactly the messages whose
channel label equals that channel's name (all of them, and nothing else),
and removes the channel itself while keeping every other channel. -/
theorem delete_channel_cascade (st : ServerState) (cid : Nat) (c : Channel)
    (h : findChannelById st.channelStore cid = some c) :
    (∀ m ∈ (deleteChannel st cid).1.messages, m ∈ st.messages ∧ m.channel ≠ c.name) ∧
    (∀ m ∈ st.messages, m.channel ≠ c.name → m ∈ (deleteChannel st cid).1.messages) ∧
    ((st.channelStore.map Channel.cid).Nodup →
      findChannelById (deleteChannel st cid).1.channelStore cid = none) ∧
    (∀ c' ∈ st.channelStore, c'.cid ≠ cid → c' ∈ (deleteChannel st cid).1.channelStore) := by
  have hres : (deleteChannel st cid).1 =
      { st with messages := st.messages.filter (fun m => !(m.channel == c.name)),
                channelStore := removeFirstChannelById st.channelStore cid } := by
    simp [deleteChannel, h]
  rw [hres]
  refine ⟨?_, ?_, ?_, ?_⟩
  · intro m hm
    rcases List.mem_filter.1 hm with ⟨hmem, hval⟩
    exact ⟨hmem, by simpa using hval⟩
  · intro m hm hne
    exact List.mem_filter.2 ⟨hm, by simpa using hne⟩
  · intro hnd
    exact findChannelById_removeFirst_nodup st.channelStore cid hnd
  · intro c' hc' hne
    exact mem_removeFirstChannelById st.channelStore cid c' hc' hne

/-- C1 counterexample: the presence/registry equivalence is violated in a
reachable state.  After `alice` joins on socket 0, a second join on the
same socket with a different identity (`bob`) overwrites the registry
entry for socket 0; `alice` is then still flagged online although no live
connection is bound to her. -/
theorem presence_equiv_counterexample :
    Reached traceStRebind ∧ presenceInv traceStRebind = false ∧
      ∃ u ∈ traceStRebind.users, u.isOnline = true ∧
        boundToUser traceStRebind.activeConnections u.uid = false := by
  refine ⟨?_, by decide, ?_⟩
  · exact Reached.step (Reached.step Reached.init
      (Step.join initState 0 (some aliceJoin) 1)) (Step.join traceStA 0 (some bobJoin) 2)
  · exact ⟨⟨1, "alice", "0xAAA", none, some "user", true, some 0, 1⟩,
      by decide, by rfl, by decide⟩

/-- C1 amended: join, explicit leave and transport disconnect preserve the
presence/registry equivalence under the side conditions the
counterexample forces — the joining socket is unbound or bound to the very
user the join resolves to, a leaving socket is the only connection bound
to its user — together with bookkeeping well-formedness (distinct user
ids, distinct registry keys, fresh id allocator). -/
theorem presence_equiv_preserved (st : ServerState)
    (hInv : presenceInv st = true)
    (hUid : (st.users.map User.uid).Nodup)
    (hKeys : (st.activeConnections.map Prod.fst).Nodup)
    (hfresh : freshUserId st = true) :
    (∀ (s now : Nat) (d : JoinData), joinSafe st s d = true →
        presenceInv (handleJoin st s (some d) now).1 = true) ∧
    (∀ (s now : Nat), leaveSafe st s = true →
        presenceInv (handleJoin st s none now).1 = true) ∧
    (∀ s : Nat, leaveSafe st s = true →
        presenceInv (handleDisconnect st s).1 = true) := by
  refine ⟨fun s now d hsafe => presence_preserved_join st s now d hInv hUid hsafe hfresh,
    fun s now hsafe => ?_, fun s hsafe => ?_⟩
  · rw [handleJoin]
    rcases hget : mapGet st.activeConnections s with _ | uid
    · exact hInv
    · dsimp only
      rcases hfind : findUserById st.users uid with _ | u
      · exact hInv
      · exact presence_preserved_offline st s uid u hInv hUid hKeys hget hfind
          (leaveSafe_spec st s uid hget hsafe)
  · rw [handleDisconnect]
    rcases hget : mapGet st.activeConnections s with _ | uid
    · exact hInv
    · dsimp only
      rcases hfind : findUserById st.users uid with _ | u
      · show presenceInv
          { st with activeConnections := mapDelete st.activeConnections s } = true
        rw [presenceInv_iff]
        intro v hv
        dsimp only at hv ⊢
        have hvne : v.uid ≠ uid := (findUserById_eq_none_iff _ _).1 hfind v hv
        rw [boundToUser_mapDelete_of_ne _ _ _ _ hKeys hget hvne]
        exact (presenceInv_iff st).1 hInv v hv
      · exact presence_preserved_offline st s uid u hInv hUid hKeys hget hfind
          (leaveSafe_spec st s uid hget hsafe)

/-- Witness for the amended C1 theorem at the initial state: a first join,
an explicit leave and a transport disconnect each preserve the
equivalence. -/
theorem presence_equiv_preserved_witness :
    presenceInv (handleJoin initState 0 (some aliceJoin) 1).1 = true ∧
      presenceInv (handleJoin initState 5 none 2).1 = true ∧
      presenceInv (handleDisconnect initState 7).1 = true := by
  have h := presence_equiv_preserved initState (by decide) (by decide) (by decide) (by decide)
  exact ⟨h.1 0 1 aliceJoin (by decide), h.2.1 5 2 (by decide), h.2.2 7 (by decide)⟩

/-- C2: a join with non-empty username and wallet address either updates
the first stored user matching either field in place — setting the online
flag, socket binding and last-seen, overwriting avatar/role only when
supplied — leaving every other user untouched and creating nothing; or,
when no user matches either field, appends exactly one new user record
carrying the supplied identity. -/
theorem join_upsert (st : ServerState) (s now : Nat) (d : JoinData)
    (hu : truthyStr d.username = true) (hw : truthyStr d.walletAddress = true)
    (hUid : (st.users.map User.uid).Nodup) :
    (∀ u, findUserByOr st.users d.username d.walletAddress = some u →
       ∃ l1 l2, st.users = l1 ++ u :: l2 ∧
         (handleJoin st s (some d) now).1.users =
           l1 ++ { u with
                   isOnline := true, socketId := some s, lastSeen := now,
                   avatar := orElseTruthy d.avatar u.avatar,
                   role := orElseTruthy d.role u.role } :: l2) ∧
    (findUserByOr st.users d.username d.walletAddress = none →
       ∃ un : User, (handleJoin st s (some d) now).1.users = st.users ++ [un] ∧
         un.username = d.username ∧ un.walletAddress = d.walletAddress ∧
         un.isOnline = true ∧ un.socketId = some s ∧ un.lastSeen = now) := by
  constructor
  · intro u hfind
    rcases findUserByOr_split st.users d.username d.walletAddress u hfind
      with ⟨l1, l2, hsplit, -⟩
    have hno : ∀ v ∈ l1, v.uid ≠ u.uid := by
      intro v hv hvu
      rw [hsplit, List.map_append, List.map_cons] at hUid
      rcases List.nodup_append.1 hUid with ⟨-, -, hdisj⟩
      exact hdisj (List.mem_map_of_mem User.uid hv)
        (hvu ▸ List.mem_cons_self u.uid (l2.map User.uid))
    refine ⟨l1, l2, hsplit, ?_⟩
    rw [handleJoin]
    dsimp only
    rw [if_pos (by rw [hu, hw]; rfl), hfind]
    dsimp only
    rw [hsplit]
    exact updateFirstUser_append l1 l2 u _ hno
  · intro hfind
    have hrun : (handleJoin st s (some d) now).1.users =
        st.users ++
          [{ uid := st.nextUserId, username := d.username,
             walletAddress := d.walletAddress, avatar := orElseTruthy d.avatar none,
             role := orElseTruthy d.role (some "user"), isOnline := true,
             socketId := some s, lastSeen := now }] := by
      rw [handleJoin]
      dsimp only
      rw [if_pos (by rw [hu, hw]; rfl), hfind]
    exact ⟨_, hrun, rfl, rfl, rfl, rfl, rfl⟩

/-- Witness for C2 at the initial state: joining as `alice` (no existing
match) appends exactly one new user record with the supplied identity. -/
theorem join_upsert_witness :
    ∃ un : User, (handleJoin initState 0 (some aliceJoin) 1).1.users =
        initState.users ++ [un] ∧ un.username = aliceJoin.username ∧
        un.walletAddress = aliceJoin.walletAddress ∧ un.isOnline = true ∧
        un.socketId = some 0 ∧ un.lastSeen = 1 :=
  (join_upsert initState 0 1 aliceJoin (by decide) (by decide) (by decide)).2 (by decide)

/-- C5: a successful single-channel send targeting channel `c` increments
the message counter of the (unique) stored channel named `c` by exactly 1
and sets its last-message timestamp, while the counter of every channel
with a different name is unchanged. -/
theorem send_increments_target_channel (st : ServerState) (s now : Nat)
    (d : MessageData) (uid : Nat) (u : User) (c : Channel)
    (hconn : mapGet st.activeConnections s = some uid)
    (huser : findUserById st.users uid = some u)
    (hon : u.isOnline = true)
    (hvalid : validMessage
      (mkMessage u d.text (resolveChannel d.channel) false st.nextMessageId now) = true)
    (hcm : c ∈ st.channelStore) (hcn : c.name = resolveChannel d.channel)
    (hnames : (st.channelStore.map Channel.name).Nodup) :
    findChannelByName (sendMessageV2 st s d now).1.channelStore c.name =
      some { c with lastMessageAt := some now, messageCount := c.messageCount + 1 } ∧
    ∀ c' ∈ st.channelStore, c'.name ≠ c.name →
      findChannelByName (sendMessageV2 st s d now).1.channelStore c'.name =
        findChannelByName st.channelStore c'.name := by
  have hrun : (sendMessageV2 st s d now).1.channelStore =
      channelUpdateFirst st.channelStore (resolveChannel d.channel) now := by
    simp [sendMessageV2, hconn, huser, hon, hvalid]
  rw [hrun]
  constructor
  · rw [findChannelByName_channelUpdateFirst, if_pos hcn, ← hcn,
      findChannelByName_of_mem_nodup st.channelStore c hnames hcm]
    rfl
  · intro c' hc' hne
    rw [findChannelByName_channelUpdateFirst, if_neg (by rw [← hcn]; exact hne)]

/-- Witness for C5: after `alice` joins, sending "hi" to the default
channel bumps the `general` counter to 1 and leaves `trading` untouched. -/
theorem send_increments_target_channel_witness :
    findChannelByName (sendMessageV2 traceStA 0 ⟨"hi", none⟩ 9).1.channelStore "general" =
      some { cid := 0, name := "general", description := "Default general channel",
             isActive := true, messageCount := 1, lastMessageAt := some 9,
             createdBy := 0 } ∧
    findChannelByName (sendMessageV2 traceStA 0 ⟨"hi", none⟩ 9).1.channelStore "trading" =
      findChannelByName traceStA.channelStore "trading" := by
  have h := send_increments_target_channel traceStA 0 9 ⟨"hi", none⟩ 1
    ⟨1, "alice", "0xAAA", none, some "user", true, some 0, 1⟩
    { cid := 0, name := "general", description := "Default general channel",
      isActive := true, messageCount := 0, lastMessageAt := none, createdBy := 0 }
    (by decide) (by decide) (by decide) (by decide) (by decide) (by decide) (by decide)
  exact ⟨h.1, h.2
    { cid := 1, name := "trading", description := "Default trading channel",
      isActive := true, messageCount := 0, lastMessageAt := none, createdBy := 0 }
    (by decide) (by decide)⟩

/-- C3 counterexample: in a reachable run, after the admin deletes the
`general` channel, a `sendMessage` with the default channel still persists
a message labelled `general` although no channel of that name exists in
the store at creation time. -/
theorem message_in_deleted_channel_counterexample :
    Reached traceStC ∧
      findChannelByName traceStB.channelStore "general" = none ∧
      ∃ m, traceStC.messages = traceStB.messages ++ [m] ∧ m.channel = "general" := by
  refine ⟨?_, by rfl, ⟨⟨0, "alice", "hi", "general", none, false, 1, 9⟩, by rfl, rfl⟩⟩
  exact Reached.step (Reached.step (Reached.step Reached.init
    (Step.join initState 0 (some aliceJoin) 1)) (Step.deleteCh traceStA 0))
    (Step.send traceStB 0 ⟨"hi", none⟩ 9)

/-- C3 amended: in every reachable state, every persisted message is
labelled with one of the five configured channel names (enforced by the
schema enum) — but, as the counterexample shows, that channel need not
still exist in the Channel store, nor exist when the message is created,
once the admin delete-channel route has run. -/
theorem reached_message_channel_in_fixed_set (st : ServerState) (h : Reached st) :
    ∀ m ∈ st.messages, channels.contains m.channel = true := by
  induction h with
  | init =>
    intro m hm
    rw [show initState.messages = [] from rfl] at hm
    cases hm
  | step hr hs ih =>
    cases hs with
    | join s d now =>
      rw [handleJoin_messages]
      exact ih
    | send s d now =>
      intro m hm
      rcases sendMessageV2_messages _ s d now m hm with h1 | h2
      · exact ih m h1
      · exact h2
    | broadcast s d failIdx now =>
      intro m hm
      rcases broadcastMessage_messages _ s d failIdx now m hm with h1 | h2
      · exact ih m h1
      · exact h2
    | typing s b =>
      rw [handleTyping_state]
      exact ih
    | disconnect s =>
      rw [handleDisconnect_messages]
      exact ih
    | createCh name description =>
      rw [createChannel_messages]
      exact ih
    | deleteCh cid =>
      intro m hm
      exact ih m (deleteChannel_messages _ cid m hm)
    | deleteMsg mid =>
      intro m hm
      exact ih m (deleteMessage_messages _ mid m hm)
    | clearMsgs cid =>
      intro m hm
      exact ih m (clearChannelMessages_messages _ cid m hm)

/-- Witness for the amended C3 theorem: the message persisted in the
concrete reachable trace above carries one of the fixed channel names. -/
theorem reached_message_channel_in_fixed_set_witness :
    channels.contains (Message.mk 0 "alice" "hi" "general" none false 1 9).channel = true :=
  reached_message_channel_in_fixed_set traceStC
    (Reached.step (Reached.step (Reached.step Reached.init
      (Step.join initState 0 (some aliceJoin) 1)) (Step.deleteCh traceStA 0))
      (Step.send traceStB 0 ⟨"hi", none⟩ 9))
    (Message.mk 0 "alice" "hi" "general" none false 1 9) (by decide)

/-- C6: a successful `broadcastMessage` of body X from a registered online
user persists exactly one message per configured channel — in channel-list
order, all carrying body X (as stored, i.e. trimmed) and the broadcast
flag — and increments the counter of every stored channel that carries a
configured name by exactly 1, also setting its last-message timestamp. -/
theorem broadcast_per_channel (st : ServerState) (s now : Nat) (d : MessageData)
    (uid : Nat) (u : User)
    (hconn : mapGet st.activeConnections s = some uid)
    (huser : findUserById st.users uid = some u)
    (hon : u.isOnline = true)
    (hu : truthyStr (jsTrim u.username) = true)
    (ht : truthyStr (jsTrim d.text) = true)
    (hl : (jsTrim d.text).length ≤ 1000) :
    ∃ ms : List Message,
      (broadcastMessage st s d none now).1.messages = st.messages ++ ms ∧
      ms.map Message.channel = channels ∧
      (∀ m ∈ ms, m.text = jsTrim d.text ∧ m.isBroadcast = true) ∧
      ((st.channelStore.map Channel.name).Nodup →
        ∀ c ∈ st.channelStore, c.name ∈ channels →
          findChannelByName (broadcastMessage st s d none now).1.channelStore c.name =
            some { c with
              lastMessageAt := some now, messageCount := c.messageCount + 1 }) := by
  have hloop := broadcastLoop_ok_eq u d.text now hu ht hl channels (by decide) 0
    st.messages st.channelStore st.nextMessageId []
  have hrun : (broadcastMessage st s d none now).1 =
      { st with
        messages := st.messages ++ mkBroadcast u d.text now channels st.nextMessageId,
        channelStore := updateChannels now channels st.channelStore,
        nextMessageId := st.nextMessageId + channels.length } := by
    simp [broadcastMessage, hconn, huser, hon, hloop]
  refine ⟨mkBroadcast u d.text now channels st.nextMessageId, by rw [hrun],
    mkBroadcast_map_channel u d.text now channels st.nextMessageId,
    mkBroadcast_fields u d.text now channels st.nextMessageId, ?_⟩
  intro hnd c hc hcl
  rw [hrun]
  show findChannelByName (updateChannels now channels st.channelStore) c.name = _
  rw [findChannelByName_updateChannels_mem_once now channels st.channelStore c.name
    hcl (by decide), findChannelByName_of_mem_nodup st.channelStore c hnd hc]
  rfl

/-- Witness for C6: after `alice` joins, a broadcast of "hi" produces one
message per configured channel and bumps every configured counter. -/
theorem broadcast_per_channel_witness :
    ∃ ms : List Message,
      (broadcastMessage traceStA 0 ⟨"hi", none⟩ none 9).1.messages =
        traceStA.messages ++ ms ∧
      ms.map Message.channel = channels ∧
      (∀ m ∈ ms, m.text = jsTrim "hi" ∧ m.isBroadcast = true) ∧
      ((traceStA.channelStore.map Channel.name).Nodup →
        ∀ c ∈ traceStA.channelStore, c.name ∈ channels →
          findChannelByName
              (broadcastMessage traceStA 0 ⟨"hi", none⟩ none 9).1.channelStore c.name =
            some { c with
              lastMessageAt := some 9, messageCount := c.messageCount + 1 }) :=
  broadcast_per_channel traceStA 0 9 ⟨"hi", none⟩ 1
    ⟨1, "alice", "0xAAA", none, some "user", true, some 0, 1⟩
    (by decide) (by decide) (by decide) (by decide) (by decide) (by decide)

/-- C9: if the persistence of the i-th channel's message throws during a
`broadcastMessage`, the messages of the channels before i stay persisted,
no message is created for channel i or any later channel, no `newMessage`
event is emitted for any channel, and exactly one `messageError` is sent
to the originating connection. -/
theorem broadcast_partial_failure (st : ServerState) (s now : Nat) (d : MessageData)
    (uid i : Nat) (u : User)
    (hconn : mapGet st.activeConnections s = some uid)
    (huser : findUserById st.users uid = some u)
    (hon : u.isOnline = true)
    (hu : truthyStr (jsTrim u.username) = true)
    (ht : truthyStr (jsTrim d.text) = true)
    (hl : (jsTrim d.text).length ≤ 1000)
    (hi : i < channels.length) :
    ∃ ms : List Message,
      (broadcastMessage st s d (some i) now).1.messages = st.messages ++ ms ∧
      ms.map Message.channel = channels.take i ∧
      (broadcastMessage st s d (some i) now).2 =
        [⟨Target.originator, Event.messageError "Server error processing broadcast message"⟩] := by
  have hloop := broadcastLoop_fail_eq u d.text now hu ht hl channels (by decide) i 0
    st.messages st.channelStore st.nextMessageId [] hi
  rw [Nat.zero_add] at hloop
  have hrun : broadcastMessage st s d (some i) now =
      ({ st with
         messages := st.messages ++ mkBroadcast u d.text now (channels.take i) st.nextMessageId,
         channelStore := updateChannels now (channels.take i) st.channelStore,
         nextMessageId := st.nextMessageId + i },
       [⟨Target.originator, Event.messageError "Server error processing broadcast message"⟩]) := by
    simp [broadcastMessage, hconn, huser, hon, hloop]
  exact ⟨mkBroadcast u d.text now (channels.take i) st.nextMessageId,
    by rw [hrun], mkBroadcast_map_channel u d.text now (channels.take i) st.nextMessageId,
    by rw [hrun]⟩

/-- Witness for C9: a broadcast of "hi" that fails at the third channel
(index 2) keeps the two messages already persisted (for `general` and
`trading`), emits no `newMessage`, and answers with one `messageError`. -/
theorem broadcast_partial_failure_witness :
    ∃ ms : List Message,
      (broadcastMessage traceStA 0 ⟨"hi", none⟩ (some 2) 9).1.messages =
        traceStA.messages ++ ms ∧
      ms.map Message.channel = channels.take 2 ∧
      (broadcastMessage traceStA 0 ⟨"hi", none⟩ (some 2) 9).2 =
        [⟨Target.originator, Event.messageError "Server error processing broadcast message"⟩] :=
  broadcast_partial_failure traceStA 0 9 ⟨"hi", none⟩ 1 2
    ⟨1, "alice", "0xAAA", none, some "user", true, some 0, 1⟩
    (by decide) (by decide) (by decide) (by decide) (by decide) (by decide) (by decide)

/-- Witness for C7 at the initial state: deleting the `general` channel
(id 0) removes it while keeping `trading`. -/
theorem delete_channel_cascade_witness :
    findChannelById (deleteChannel initState 0).1.channelStore 0 = none ∧
      ({ cid := 1, name := "trading", description := "Default trading channel",
         isActive := true, messageCount := 0, lastMessageAt := none,
         createdBy := 0 } : Channel) ∈ (deleteChannel initState 0).1.channelStore := by
  have h := delete_channel_cascade initState 0
    { cid := 0, name := "general", description := "Default general channel",
      isActive := true, messageCount := 0, lastMessageAt := none, createdBy := 0 }
    (by rfl)
  exact ⟨h.2.2.1 (by decide), h.2.2.2 _ (by decide) (by decide)⟩

end Solhub
